import Mathlib

/-!
Shallow embedding of the CI helper scripts under `.github/scripts/` of the
AcalaNetwork/Acala repository (inspect.py, setup-env.py,
publish_release_setup_env.py, extrinsic_check_setup_env.py,
docker_setup_matrix.py), together with theorems settling the frozen claims
about them.

Python's `re.search` with the fixed pattern
`release-(mandala|karura|acala)-(\d+\.\d+\.\d+)` is embedded as a leftmost
matcher: `re.search` tries the pattern at every start position left to
right.  For this particular pattern, backtracking is equivalent to maximal
munch: each alternative of the chain group starts with a distinct letter,
and every `\d+` is followed by a character (`.` or end of pattern) that is
not a digit, so the greedy digit runs never have to give characters back.
A failed match (Python `x.group(...)` raising `AttributeError` on `None`,
or an out-of-range list index raising `IndexError`) is modelled by
`Option.none`: the script dies with an unhandled exception before writing
any output.  `\d` is modelled as an ASCII digit and `str.strip()` over the
six ASCII whitespace characters, which is exact for the ASCII branch names
these scripts process.
-/

namespace AcalaCI

/-- The six ASCII whitespace characters stripped by Python's `str.strip()`. -/
def isPySpace (c : Char) : Bool :=
  c = ' ' || c = '\t' || c = '\n' || c = '\r' || c = '\x0b' || c = '\x0c'

/-- Literal `release-` from the regex in inspect.py line 4. -/
def litRelease : List Char := "release-".toList

/-- First alternative of the chain group of the regex in inspect.py. -/
def litMandala : List Char := "mandala".toList

/-- Second alternative of the chain group. -/
def litKarura : List Char := "karura".toList

/-- Third alternative of the chain group. -/
def litAcala : List Char := "acala".toList

/-- Consume an exact literal at the head of the input, returning the rest. -/
def dropLit : List Char → List Char → Option (List Char)
  | [], cs => some cs
  | _ :: _, [] => none
  | l :: ls, c :: cs => if c = l then dropLit ls cs else none

/-- Greedy `\d+`: a nonempty maximal run of digits and the remaining input. -/
def readNum (cs : List Char) : Option (List Char × List Char) :=
  let ds := cs.takeWhile Char.isDigit
  if ds = [] then none else some (ds, cs.dropWhile Char.isDigit)

/-- The alternation `(mandala|karura|acala)`, tried in the regex's order.
The alternatives begin with distinct letters, so at most one can apply. -/
def readChain (cs : List Char) : Option (String × List Char) :=
  match dropLit litMandala cs with
  | some r => some ("mandala", r)
  | none =>
    match dropLit litKarura cs with
    | some r => some ("karura", r)
    | none =>
      match dropLit litAcala cs with
      | some r => some ("acala", r)
      | none => none

/-- Attempt the whole pattern `release-(mandala|karura|acala)-(\d+\.\d+\.\d+)`
anchored at the start of `cs`; on success return (group 1, group 2). -/
def tryMatchAt (cs : List Char) : Option (String × String) :=
  (dropLit litRelease cs).bind fun r1 =>
  (readChain r1).bind fun cr =>
  (dropLit ['-'] cr.2).bind fun r3 =>
  (readNum r3).bind fun ar =>
  (dropLit ['.'] ar.2).bind fun r5 =>
  (readNum r5).bind fun br =>
  (dropLit ['.'] br.2).bind fun r7 =>
  (readNum r7).map fun pr =>
  (cr.1, String.mk (ar.1 ++ '.' :: (br.1 ++ '.' :: pr.1)))

/-- `re.search`: try the pattern at each start position, left to right. -/
def reSearch : List Char → Option (String × String)
  | [] => none
  | c :: rest =>
    match tryMatchAt (c :: rest) with
    | some r => some r
    | none => reSearch rest

/-- inspect.py lines 6-11: `get_chain_and_version(branch_name)`.
`none` models the `AttributeError` raised by `x.group(1)` when
`re.search` returns `None`. -/
def get_chain_and_version (branch_name : String) : Option (String × String) :=
  reSearch branch_name.toList

/-- Python `str.strip()` on the character-list level: drop leading and
trailing ASCII whitespace. -/
def stripChars (l : List Char) : List Char :=
  ((l.dropWhile isPySpace).reverse.dropWhile isPySpace).reverse

/-- Python `str.split(sep)` for a one-character separator: split at every
occurrence of `sep`, keeping empty pieces; the result is never empty. -/
def splitOnChar (sep : Char) : List Char → List (List Char)
  | [] => [[]]
  | c :: cs =>
    match splitOnChar sep cs with
    | [] => [[]]
    | h :: t => if c = sep then [] :: h :: t else (c :: h) :: t

/-- inspect.py line 14: the branch-listing command built by
`get_previous_version` (note the `--sort=committerdate` flag). -/
def inspect_branch_cmd (chain : String) : String :=
  "git branch --remote --sort=committerdate | grep origin/release-" ++ chain ++ "-"

/-- setup-env.py line 11: the branch-listing command built there
(plain `git branch -a`, no sort flag). -/
def setup_env_branch_cmd (chain : String) : String :=
  "git branch -a | grep remotes/origin/release-" ++ chain ++ "-"

/-- The flag that orders `git branch` output by committer date ascending. -/
def sortFlag : String := "--sort=committerdate"

/-- Python `needle in haystack` on character lists: `hasSubList l pat` is
true when `pat` occurs contiguously in `l`. -/
def startsWithList : List Char → List Char → Bool
  | _, [] => true
  | [], _ :: _ => false
  | c :: cs, p :: ps => c = p && startsWithList cs ps

/-- Substring occurrence test (Python's `str.__contains__`). -/
def hasSubList : List Char → List Char → Bool
  | [], pat => startsWithList [] pat
  | c :: rest, pat => startsWithList (c :: rest) pat || hasSubList rest pat

/-- inspect.py lines 13-24: `get_previous_version`, as a function of the
raw text produced by the listing command `inspect_branch_cmd chain`
(the part of the source not reproducible in a pure embedding).  The raw
text is split on newlines, each line is stripped, empty lines are dropped,
the second-to-last entry (`branches[-2]`, an `IndexError` when fewer than
two remain, modelled by `none`) is re-searched with the same regex, and
group 2 is returned. -/
def get_previous_version (listing : String) : Option String :=
  let branches := (splitOnChar '\n' listing.toList).map stripChars
  let branches := branches.filter (fun l => l ≠ ([] : List Char))
  (branches.reverse.get? 1).bind fun previous_branches =>
    (reSearch previous_branches).map fun r => r.2

/-- The spec's description of the previous-version resolver (spec §4.2):
discard empty and whitespace-only lines of the raw listing, select the
second-to-last entry of the remaining ordered list, and extract the
version component from that entry with the release-branch regex. -/
def previousVersionSpec (listing : String) : Option String :=
  let kept := (splitOnChar '\n' listing.toList).filter
    (fun l => !(l.all isPySpace))
  (kept.reverse.get? 1).bind fun entry =>
    (reSearch entry).map fun r => r.2

/-- setup-env.py lines 21-22 / publish_release_setup_env.py lines 7-8:
`is_patch = previous_version.split(".")[1] == version.split(".")[1]`,
`scope = "runtime" if is_patch else "full"`.  An out-of-range index
(fewer than two dot-separated components) is modelled by `none`. -/
def scope (previous_version version : String) : Option String :=
  ((splitOnChar '.' previous_version.toList).get? 1).bind fun a =>
  ((splitOnChar '.' version.toList).get? 1).map fun b =>
  if a = b then "runtime" else "full"

/-- The default matrix line docker_setup_matrix.py line 16 writes. -/
def default_matrix_line : String :=
  "matrix=\x7b\"network\": [\"mandala\", \"karura\", \"acala\"]\x7d"

/-- docker_setup_matrix.py lines 5-17: the lines appended to the
`GITHUB_OUTPUT` file.  `branch_arg` is `sys.argv[1]` when present
(absent defaults to `''`).  When the branch contains `release-` but
`get_chain_and_version` fails, the unhandled exception means nothing is
written: `none`. -/
def matrix_lines (branch_arg : Option String) : Option (List String) :=
  let branch := branch_arg.getD ""
  if hasSubList branch.toList "release-".toList then
    (get_chain_and_version branch).map fun cv =>
      ["matrix=\x7b\"network\": [\"" ++ cv.1 ++ "\"]\x7d",
       "version=" ++ cv.2]
  else
    some [default_matrix_line]

/-- extrinsic_check_setup_env.py lines 4-10: parse `GITHUB_REF`, resolve
the previous version from the listing, and append the three env lines.
Any failure before a write (`none`) writes nothing. -/
def extrinsic_check_env_lines (github_ref listing : String) :
    Option (List String) :=
  (get_chain_and_version github_ref).bind fun cv =>
  (get_previous_version listing).map fun prev =>
  ["CHAIN=" ++ cv.1, "VERSION=" ++ cv.2, "PREVIOUS_VERSION=" ++ prev]

/-! ### setup-env.py's own regex

setup-env.py line 4 defines its own pattern
`release-(karura|acala)-(\d+\.\d+\.\d+)`, whose chain group lacks
`mandala`.  The matcher is embedded separately. -/

/-- The alternation `(karura|acala)` of setup-env.py's regex. -/
def readChainSE (cs : List Char) : Option (String × List Char) :=
  match dropLit litKarura cs with
  | some r => some ("karura", r)
  | none =>
    match dropLit litAcala cs with
    | some r => some ("acala", r)
    | none => none

/-- setup-env.py's pattern anchored at the start of `cs`. -/
def tryMatchAtSE (cs : List Char) : Option (String × String) :=
  (dropLit litRelease cs).bind fun r1 =>
  (readChainSE r1).bind fun cr =>
  (dropLit ['-'] cr.2).bind fun r3 =>
  (readNum r3).bind fun ar =>
  (dropLit ['.'] ar.2).bind fun r5 =>
  (readNum r5).bind fun br =>
  (dropLit ['.'] br.2).bind fun r7 =>
  (readNum r7).map fun pr =>
  (cr.1, String.mk (ar.1 ++ '.' :: (br.1 ++ '.' :: pr.1)))

/-- `re.search` with setup-env.py's regex. -/
def reSearchSE : List Char → Option (String × String)
  | [] => none
  | c :: rest =>
    match tryMatchAtSE (c :: rest) with
    | some r => some r
    | none => reSearchSE rest

/-- setup-env.py lines 11-19: the previous-version computation there,
using setup-env.py's own regex on the second-to-last stripped nonempty
line of the raw listing. -/
def se_previous_version (listing : String) : Option String :=
  let branches := (splitOnChar '\n' listing.toList).map stripChars
  let branches := branches.filter (fun l => l ≠ ([] : List Char))
  (branches.reverse.get? 1).bind fun previous_branches =>
    (reSearchSE previous_branches).map fun r => r.2

/-- setup-env.py lines 6-26: parse `GITHUB_REF` with the karura/acala-only
regex, resolve the previous version, classify the scope, and append the
`CHAIN`/`SCOPE` lines; `none` models an unhandled exception with no lines
written. -/
def setup_env_lines (github_ref listing : String) : Option (List String) :=
  (reSearchSE github_ref.toList).bind fun cv =>
  (se_previous_version listing).bind fun prev =>
  (scope prev cv.2).map fun sc =>
  ["CHAIN=" ++ cv.1, "SCOPE=" ++ sc]

/-- Whether a character list starts with a digit (used to mark the right
edge of a maximal digit run). -/
def headDigit : List Char → Bool
  | [] => false
  | c :: _ => c.isDigit

/-! ## Lemmas about the embedded matcher -/

theorem toList_append (a b : String) : (a ++ b).toList = a.toList ++ b.toList := rfl

theorem dropLit_self (lit rest : List Char) : dropLit lit (lit ++ rest) = some rest := by
  induction lit with
  | nil => rfl
  | cons l ls ih => simp [dropLit, ih]

theorem reSearch_cons_none (c : Char) (cs : List Char)
    (h : tryMatchAt (c :: cs) = none) : reSearch (c :: cs) = reSearch cs := by
  simp [reSearch, h]

theorem reSearch_cons_some (c : Char) (cs : List Char) (r : String × String)
    (h : tryMatchAt (c :: cs) = some r) : reSearch (c :: cs) = some r := by
  simp [reSearch, h]

theorem reSearch_skip_origin (x : List Char) :
    reSearch ("origin/".toList ++ x) = reSearch x := rfl

theorem reSearch_skip_remotes (x : List Char) :
    reSearch ("remotes/origin/".toList ++ x) = reSearch x := rfl

theorem takeWhile_digits (ds rest : List Char)
    (hd : ∀ c ∈ ds, c.isDigit = true) (hr : headDigit rest = false) :
    (ds ++ rest).takeWhile Char.isDigit = ds := by
  rw [List.takeWhile_append_of_pos hd]
  cases rest with
  | nil => simp
  | cons c t =>
    simp only [headDigit] at hr
    simp [List.takeWhile_cons, hr]

theorem dropWhile_digits (ds rest : List Char)
    (hd : ∀ c ∈ ds, c.isDigit = true) (hr : headDigit rest = false) :
    (ds ++ rest).dropWhile Char.isDigit = rest := by
  rw [List.dropWhile_append_of_pos hd]
  cases rest with
  | nil => rfl
  | cons c t =>
    simp only [headDigit] at hr
    simp [List.dropWhile_cons, hr]

theorem readNum_exact (ds rest : List Char) (h0 : ds ≠ [])
    (hd : ∀ c ∈ ds, c.isDigit = true) (hr : headDigit rest = false) :
    readNum (ds ++ rest) = some (ds, rest) := by
  simp [readNum, takeWhile_digits ds rest hd hr, dropWhile_digits ds rest hd hr, h0]

theorem readChain_mandala (rest : List Char) :
    readChain (litMandala ++ rest) = some ("mandala", rest) := by
  simp [readChain, dropLit_self]

theorem readChain_karura (rest : List Char) :
    readChain (litKarura ++ rest) = some ("karura", rest) := by
  have h : dropLit litMandala (litKarura ++ rest) = none := rfl
  simp [readChain, h, dropLit_self]

theorem readChain_acala (rest : List Char) :
    readChain (litAcala ++ rest) = some ("acala", rest) := by
  have h1 : dropLit litMandala (litAcala ++ rest) = none := rfl
  have h2 : dropLit litKarura (litAcala ++ rest) = none := rfl
  simp [readChain, h1, h2, dropLit_self]

/-- Successful anchored match: `release-` followed by a chain alternative,
a dash, and three digit runs separated by dots, with anything that does
not extend the last digit run afterwards. -/
theorem tryMatchAt_mk (cl : List Char) (ch : String) (M m p s : List Char)
    (hc : readChain (cl ++ ('-' :: (M ++ '.' :: (m ++ '.' :: (p ++ s)))))
        = some (ch, '-' :: (M ++ '.' :: (m ++ '.' :: (p ++ s)))))
    (hM0 : M ≠ []) (hMd : ∀ c ∈ M, c.isDigit = true)
    (hm0 : m ≠ []) (hmd : ∀ c ∈ m, c.isDigit = true)
    (hp0 : p ≠ []) (hpd : ∀ c ∈ p, c.isDigit = true)
    (hs : headDigit s = false) :
    tryMatchAt (litRelease ++ (cl ++ ('-' :: (M ++ '.' :: (m ++ '.' :: (p ++ s))))))
      = some (ch, String.mk (M ++ '.' :: (m ++ '.' :: p))) := by
  have h1 := dropLit_self litRelease (cl ++ ('-' :: (M ++ '.' :: (m ++ '.' :: (p ++ s)))))
  have hdash : dropLit ['-'] ('-' :: (M ++ '.' :: (m ++ '.' :: (p ++ s))))
      = some (M ++ '.' :: (m ++ '.' :: (p ++ s))) := rfl
  have hM : readNum (M ++ '.' :: (m ++ '.' :: (p ++ s)))
      = some (M, '.' :: (m ++ '.' :: (p ++ s))) :=
    readNum_exact M ('.' :: (m ++ '.' :: (p ++ s))) hM0 hMd rfl
  have hdot1 : dropLit ['.'] ('.' :: (m ++ '.' :: (p ++ s)))
      = some (m ++ '.' :: (p ++ s)) := rfl
  have hm : readNum (m ++ '.' :: (p ++ s)) = some (m, '.' :: (p ++ s)) :=
    readNum_exact m ('.' :: (p ++ s)) hm0 hmd rfl
  have hdot2 : dropLit ['.'] ('.' :: (p ++ s)) = some (p ++ s) := rfl
  have hps : readNum (p ++ s) = some (p, s) := readNum_exact p s hp0 hpd hs
  simp [tryMatchAt, h1, hc, hdash, hM, hdot1, hm, hdot2, hps]

theorem reSearch_nonempty_some (cs : List Char) (r : String × String)
    (h : tryMatchAt cs = some r) (hne : cs ≠ []) : reSearch cs = some r := by
  cases cs with
  | nil => exact absurd rfl hne
  | cons c t => exact reSearch_cons_some c t r h

theorem toList_mk (l : List Char) : (String.mk l).toList = l := rfl

theorem toList_release : "release-".toList = litRelease := rfl

theorem toList_dash : "-".toList = ['-'] := rfl

/-- The leftmost match of a well-formed release branch: the regex applied
to `release-<chain>-<M>.<m>.<p><s>` (for a chain known to the alternation
and digit runs `M`, `m`, `p`, with `s` not extending the last run)
returns that chain and version. -/
theorem reSearch_release (chain : String)
    (hchain : chain = "mandala" ∨ chain = "karura" ∨ chain = "acala")
    (M m p s : List Char)
    (hM0 : M ≠ []) (hMd : ∀ c ∈ M, c.isDigit = true)
    (hm0 : m ≠ []) (hmd : ∀ c ∈ m, c.isDigit = true)
    (hp0 : p ≠ []) (hpd : ∀ c ∈ p, c.isDigit = true)
    (hs : headDigit s = false) :
    reSearch (litRelease ++ (chain.toList ++ ('-' :: (M ++ '.' :: (m ++ '.' :: (p ++ s))))))
      = some (chain, String.mk (M ++ '.' :: (m ++ '.' :: p))) := by
  have hne : litRelease ++ (chain.toList ++ ('-' :: (M ++ '.' :: (m ++ '.' :: (p ++ s))))) ≠ [] := by
    simp [litRelease]
  rcases hchain with h | h | h <;> subst h
  · exact reSearch_nonempty_some _ _
      (tryMatchAt_mk litMandala "mandala" M m p s
        (readChain_mandala _) hM0 hMd hm0 hmd hp0 hpd hs) hne
  · exact reSearch_nonempty_some _ _
      (tryMatchAt_mk litKarura "karura" M m p s
        (readChain_karura _) hM0 hMd hm0 hmd hp0 hpd hs) hne
  · exact reSearch_nonempty_some _ _
      (tryMatchAt_mk litAcala "acala" M m p s
        (readChain_acala _) hM0 hMd hm0 hmd hp0 hpd hs) hne

/-- Claim C1: for every branch string containing a substring of the form
`release-<chain>-<M>.<m>.<p>` — `<chain>` one of mandala/karura/acala,
`M`, `m`, `p` digit runs (taken maximal: the following text `s` does not
start with a digit), optionally preceded by a prefix such as `origin/` or
`remotes/origin/` — `get_chain_and_version` returns exactly the pair
`(<chain>, "<M>.<m>.<p>")`. -/
theorem C1_get_chain_and_version_parses
    (pre chain : String)
    (hpre : pre = "" ∨ pre = "origin/" ∨ pre = "remotes/origin/")
    (hchain : chain = "mandala" ∨ chain = "karura" ∨ chain = "acala")
    (M m p s : List Char)
    (hM0 : M ≠ []) (hMd : ∀ c ∈ M, c.isDigit = true)
    (hm0 : m ≠ []) (hmd : ∀ c ∈ m, c.isDigit = true)
    (hp0 : p ≠ []) (hpd : ∀ c ∈ p, c.isDigit = true)
    (hs : headDigit s = false) :
    get_chain_and_version
        (pre ++ "release-" ++ chain ++ "-" ++ String.mk (M ++ '.' :: (m ++ '.' :: (p ++ s))))
      = some (chain, String.mk (M ++ '.' :: (m ++ '.' :: p))) := by
  have hsearch := reSearch_release chain hchain M m p s hM0 hMd hm0 hmd hp0 hpd hs
  have hl : (pre ++ "release-" ++ chain ++ "-"
        ++ String.mk (M ++ '.' :: (m ++ '.' :: (p ++ s)))).toList
      = pre.toList ++ (litRelease ++ (chain.toList
        ++ ('-' :: (M ++ '.' :: (m ++ '.' :: (p ++ s)))))) := by
    simp only [toList_append, toList_release, toList_dash, toList_mk,
      List.append_assoc, List.singleton_append]
  rw [get_chain_and_version, hl]
  rcases hpre with h | h | h <;> subst h
  · rw [show ("" : String).toList = [] from rfl, List.nil_append]
    exact hsearch
  · rw [reSearch_skip_origin]
    exact hsearch
  · rw [reSearch_skip_remotes]
    exact hsearch

/-- Witness for C1 at the concrete branch `origin/release-karura-2.10.0`. -/
theorem C1_witness :
    get_chain_and_version "origin/release-karura-2.10.0" = some ("karura", "2.10.0") :=
  C1_get_chain_and_version_parses "origin/" "karura"
    (Or.inr (Or.inl rfl)) (Or.inr (Or.inl rfl))
    ['2'] ['1', '0'] ['0'] []
    (by decide) (by decide) (by decide) (by decide) (by decide) (by decide) rfl

/-- Claim C7: parsing is prefix-insensitive: prepending `origin/` or
`remotes/origin/` to any branch string leaves `get_chain_and_version`'s
result unchanged (no attempted match can start inside either prefix, so
the leftmost match is the same); in particular
`release-karura-2.10.0` and `remotes/origin/release-karura-2.10.0`
parse identically. -/
theorem C7_prefix_insensitive :
    (∀ s : String, get_chain_and_version ("origin/" ++ s) = get_chain_and_version s)
    ∧ (∀ s : String,
        get_chain_and_version ("remotes/origin/" ++ s) = get_chain_and_version s)
    ∧ get_chain_and_version "remotes/origin/release-karura-2.10.0"
        = get_chain_and_version "release-karura-2.10.0"
    ∧ get_chain_and_version "release-karura-2.10.0" = some ("karura", "2.10.0") :=
  ⟨fun s => reSearch_skip_origin s.toList,
   fun s => reSearch_skip_remotes s.toList,
   rfl, rfl⟩

/-- Claim C3: when fewer than two branches survive the strip-and-filter
of the listing, `get_previous_version` fails (Python's `IndexError` on
`branches[-2]`, modelled by `none`) instead of returning a version. -/
theorem C3_insufficient_history (listing : String)
    (h : (((splitOnChar '\n' listing.toList).map stripChars).filter
        (fun l => l ≠ ([] : List Char))).length < 2) :
    get_previous_version listing = none := by
  have hidx : (((splitOnChar '\n' listing.toList).map stripChars).filter
      (fun l => l ≠ ([] : List Char))).reverse.get? 1 = none := by
    rw [List.get?_eq_none, List.length_reverse]
    omega
  simp only [get_previous_version, hidx, Option.none_bind]

/-- Witness for C3: a listing with a single matching branch fails. -/
theorem C3_witness : get_previous_version "origin/release-karura-2.10.0" = none :=
  C3_insufficient_history "origin/release-karura-2.10.0" (by decide)

/-- Claim C4 counterexample: the listing command constructed by
setup-env.py line 11 for chain `karura` does not contain the
`--sort=committerdate` flag, so that script does not order branches by
commit date — refuting "every script that resolves a previous version
orders the candidate release branches by commit date". -/
theorem C4_counterexample :
    hasSubList (setup_env_branch_cmd "karura").toList sortFlag.toList = false := by
  decide

/-- Claim C4 as amended: the shared resolver in inspect.py builds a
listing command carrying `--sort=committerdate` (commit date ascending),
but the standalone setup-env.py builds `git branch -a | grep ...` with no
sort flag, keeping git's default listing order. -/
theorem C4_amended_sorting (chain : String)
    (h : chain = "mandala" ∨ chain = "karura" ∨ chain = "acala") :
    hasSubList (inspect_branch_cmd chain).toList sortFlag.toList = true
    ∧ hasSubList (setup_env_branch_cmd chain).toList sortFlag.toList = false := by
  rcases h with h | h | h <;> subst h <;> exact ⟨by decide, by decide⟩

/-- Witness for the amended C4 at chain `karura`. -/
theorem C4_witness :
    hasSubList (inspect_branch_cmd "karura").toList sortFlag.toList = true
    ∧ hasSubList (setup_env_branch_cmd "karura").toList sortFlag.toList = false :=
  C4_amended_sorting "karura" (Or.inr (Or.inl rfl))

theorem splitOnChar_ne_nil (sep : Char) (l : List Char) : splitOnChar sep l ≠ [] := by
  cases l with
  | nil => simp [splitOnChar]
  | cons c cs =>
    cases h : splitOnChar sep cs with
    | nil => simp [splitOnChar, h]
    | cons h' t' => by_cases hc : c = sep <;> simp [splitOnChar, h, hc]

theorem splitOnChar_sep_append (sep : Char) (a rest : List Char) (h : sep ∉ a) :
    splitOnChar sep (a ++ sep :: rest) = a :: splitOnChar sep rest := by
  induction a with
  | nil =>
    obtain ⟨h', t', heq⟩ := List.exists_cons_of_ne_nil (splitOnChar_ne_nil sep rest)
    simp [splitOnChar, heq]
  | cons c a' ih =>
    have hc : c ≠ sep := fun hcs => h (by simp [hcs])
    have ha' : sep ∉ a' := fun hm => h (by simp [hm])
    simp [splitOnChar, ih ha', hc]

theorem splitOnChar_get1 (sep : Char) (a b rest : List Char)
    (ha : sep ∉ a) (hb : sep ∉ b) :
    (splitOnChar sep (a ++ sep :: (b ++ sep :: rest))).get? 1 = some b := by
  rw [splitOnChar_sep_append sep a _ ha, splitOnChar_sep_append sep b rest hb]
  rfl

/-- Claim C5: for versions in `major.minor.patch` form the scope
classifier returns `"runtime"` exactly when the minor components agree
and `"full"` otherwise; in particular `scope "2.9.5" "2.10.0" = "full"`
and `scope "2.9.0" "2.9.1" = "runtime"`. -/
theorem C5_scope_classifier :
    (∀ M1 m1 p1 M2 m2 p2 : List Char,
      '.' ∉ M1 → '.' ∉ m1 → '.' ∉ M2 → '.' ∉ m2 →
      scope (String.mk (M1 ++ '.' :: (m1 ++ '.' :: p1)))
            (String.mk (M2 ++ '.' :: (m2 ++ '.' :: p2)))
        = some (if m1 = m2 then "runtime" else "full"))
    ∧ scope "2.9.5" "2.10.0" = some "full"
    ∧ scope "2.9.0" "2.9.1" = some "runtime" := by
  refine ⟨fun M1 m1 p1 M2 m2 p2 h1 h2 h3 h4 => ?_, rfl, rfl⟩
  simp only [scope, toList_mk, splitOnChar_get1 '.' M1 m1 p1 h1 h2,
    splitOnChar_get1 '.' M2 m2 p2 h3 h4, Option.some_bind, Option.map_some']

/-- Witness for C5 at the spec's example pair (2.9.5, 2.10.0). -/
theorem C5_witness : scope "2.9.5" "2.10.0" = some "full" := by
  have h := C5_scope_classifier.1 ['2'] ['9'] ['5'] ['2'] ['1', '0'] ['0']
    (by decide) (by decide) (by decide) (by decide)
  simpa using h

/-- Claim C6: with an absent branch argument, or a branch not containing
`release-`, the matrix selector writes the fixed three-chain default
line; with a branch containing `release-` that parses, it writes a
single-chain network list plus a separate version output field. -/
theorem C6_matrix_selector :
    matrix_lines none = some [default_matrix_line]
    ∧ (∀ b : String, hasSubList b.toList "release-".toList = false →
        matrix_lines (some b) = some [default_matrix_line])
    ∧ (∀ b chain ver : String, hasSubList b.toList "release-".toList = true →
        get_chain_and_version b = some (chain, ver) →
        matrix_lines (some b)
          = some ["matrix=\x7b\"network\": [\"" ++ chain ++ "\"]\x7d",
                  "version=" ++ ver]) := by
  refine ⟨rfl, fun b hb => ?_, fun b chain ver hb hp => ?_⟩
  · have hb' : hasSubList b.data ['r', 'e', 'l', 'e', 'a', 's', 'e', '-'] = false := hb
    simp [matrix_lines, hb']
  · have hb' : hasSubList b.data ['r', 'e', 'l', 'e', 'a', 's', 'e', '-'] = true := hb
    simp [matrix_lines, hb', hp]

/-- Witness for C6: the default at a non-release branch and the
single-chain matrix at `release-acala-1.2.3`. -/
theorem C6_witness :
    matrix_lines (some "main") = some [default_matrix_line]
    ∧ matrix_lines (some "release-acala-1.2.3")
        = some ["matrix=\x7b\"network\": [\"acala\"]\x7d", "version=1.2.3"] :=
  ⟨C6_matrix_selector.2.1 "main" (by decide),
   C6_matrix_selector.2.2 "release-acala-1.2.3" "acala" "1.2.3" (by decide) (by decide)⟩

/-- Claim C8: when the release pattern does not match the branch (regex
search fails), parsing yields the error value and the env-setup script
writes no output lines at all — never a silent default. -/
theorem C8_parse_failure_no_output :
    get_chain_and_version "main" = none
    ∧ (∀ github_ref listing : String, get_chain_and_version github_ref = none →
        extrinsic_check_env_lines github_ref listing = none) := by
  refine ⟨rfl, fun r l h => ?_⟩
  simp [extrinsic_check_env_lines, h]

/-- Witness for C8 at the non-release branch `main`. -/
theorem C8_witness : extrinsic_check_env_lines "main" "whatever" = none :=
  C8_parse_failure_no_output.2 "main" "whatever" rfl

/-- Claim C9 (implicit): a branch containing `release-` that does not
match the full pattern (such as `release-polkadot-1.0.0`) makes the
matrix selector die on the failed match, writing no matrix line at all —
it does not fall back to the default matrix. -/
theorem C9_malformed_release_branch :
    (∀ b : String, hasSubList b.toList "release-".toList = true →
        get_chain_and_version b = none → matrix_lines (some b) = none)
    ∧ hasSubList "release-polkadot-1.0.0".toList "release-".toList = true
    ∧ get_chain_and_version "release-polkadot-1.0.0" = none := by
  refine ⟨fun b hb hp => ?_, rfl, rfl⟩
  have hb' : hasSubList b.data ['r', 'e', 'l', 'e', 'a', 's', 'e', '-'] = true := hb
  simp [matrix_lines, hb', hp]

/-- Witness for C9 at `release-polkadot-1.0.0`. -/
theorem C9_witness : matrix_lines (some "release-polkadot-1.0.0") = none :=
  C9_malformed_release_branch.1 "release-polkadot-1.0.0" rfl rfl

/-! ## Whitespace lemmas: stripping a line never changes the search result

Needed to relate `get_previous_version` (which strips each line before
filtering) to the spec's description (which filters whitespace-only lines
and searches the original entry). -/

theorem isPySpace_cases (c : Char) (h : isPySpace c = true) :
    c = ' ' ∨ c = '\t' ∨ c = '\n' ∨ c = '\r' ∨ c = '\x0b' ∨ c = '\x0c' := by
  simp only [isPySpace, Bool.or_eq_true, decide_eq_true_eq] at h
  tauto

theorem isPySpace_ne_r (c : Char) (h : isPySpace c = true) : c ≠ 'r' := by
  rcases isPySpace_cases c h with h | h | h | h | h | h <;> subst h <;> decide

theorem isPySpace_not_digit (c : Char) (h : isPySpace c = true) :
    c.isDigit = false := by
  rcases isPySpace_cases c h with h | h | h | h | h | h <;> subst h <;> decide

theorem tryMatchAt_not_r (c : Char) (cs : List Char) (h : c ≠ 'r') :
    tryMatchAt (c :: cs) = none := by
  have hd : dropLit litRelease (c :: cs) = none := by
    simp [litRelease, dropLit, h]
  simp [tryMatchAt, hd]

theorem reSearch_all_not_r (l : List Char) (h : ∀ c ∈ l, c ≠ 'r') :
    reSearch l = none := by
  induction l with
  | nil => rfl
  | cons c t ih =>
    rw [reSearch_cons_none c t (tryMatchAt_not_r c t (h c (by simp)))]
    exact ih fun x hx => h x (by simp [hx])

theorem reSearch_ws_lead (lead x : List Char)
    (h : ∀ c ∈ lead, isPySpace c = true) :
    reSearch (lead ++ x) = reSearch x := by
  induction lead with
  | nil => rfl
  | cons c t ih =>
    rw [List.cons_append,
      reSearch_cons_none c (t ++ x)
        (tryMatchAt_not_r c (t ++ x) (isPySpace_ne_r c (h c (by simp))))]
    exact ih fun y hy => h y (by simp [hy])

theorem dropLit_append_ws (lit : List Char) (hlit : ∀ c ∈ lit, isPySpace c = false)
    (t : List Char) (ht : ∀ c ∈ t, isPySpace c = true) :
    ∀ y : List Char, dropLit lit (y ++ t) = (dropLit lit y).map (· ++ t) := by
  induction lit with
  | nil => intro y; rfl
  | cons l ls ih =>
    intro y
    cases y with
    | nil =>
      cases t with
      | nil => rfl
      | cons c t' =>
        have hcl : c ≠ l := by
          intro he
          rw [he] at ht
          have := ht l (by simp)
          rw [hlit l (by simp)] at this
          exact Bool.false_ne_true this
        simp [dropLit, hcl]
    | cons a y' =>
      by_cases hal : a = l
      · have := ih (fun c hc => hlit c (by simp [hc])) y'
        simp [dropLit, hal, this]
      · simp [dropLit, hal]

theorem takeWhile_append_nondigit (t : List Char) (ht : headDigit t = false) :
    ∀ y : List Char, (y ++ t).takeWhile Char.isDigit = y.takeWhile Char.isDigit := by
  intro y
  induction y with
  | nil =>
    cases t with
    | nil => rfl
    | cons c t' =>
      simp only [headDigit] at ht
      simp [List.takeWhile_cons, ht]
  | cons a y' ih =>
    by_cases ha : a.isDigit = true
    · simp [List.takeWhile_cons, ha, ih]
    · simp only [Bool.not_eq_true] at ha
      simp [List.takeWhile_cons, ha]

theorem dropWhile_append_nondigit (t : List Char) (ht : headDigit t = false) :
    ∀ y : List Char, (y ++ t).dropWhile Char.isDigit = y.dropWhile Char.isDigit ++ t := by
  intro y
  induction y with
  | nil =>
    cases t with
    | nil => rfl
    | cons c t' =>
      simp only [headDigit] at ht
      simp [List.dropWhile_cons, ht]
  | cons a y' ih =>
    by_cases ha : a.isDigit = true
    · simp [List.dropWhile_cons, ha, ih]
    · simp only [Bool.not_eq_true] at ha
      simp [List.dropWhile_cons, ha]

theorem headDigit_of_ws (t : List Char) (ht : ∀ c ∈ t, isPySpace c = true) :
    headDigit t = false := by
  cases t with
  | nil => rfl
  | cons c t' => exact isPySpace_not_digit c (ht c (by simp))

theorem readNum_append_ws (t : List Char) (ht : ∀ c ∈ t, isPySpace c = true)
    (y : List Char) :
    readNum (y ++ t) = (readNum y).map (fun r => (r.1, r.2 ++ t)) := by
  have h1 := takeWhile_append_nondigit t (headDigit_of_ws t ht) y
  have h2 := dropWhile_append_nondigit t (headDigit_of_ws t ht) y
  by_cases h0 : y.takeWhile Char.isDigit = []
  · simp [readNum, h1, h2, h0]
  · simp [readNum, h1, h2, h0]

theorem readChain_append_ws (t : List Char) (ht : ∀ c ∈ t, isPySpace c = true)
    (y : List Char) :
    readChain (y ++ t) = (readChain y).map (fun r => (r.1, r.2 ++ t)) := by
  have hM := dropLit_append_ws litMandala (by decide) t ht y
  have hK := dropLit_append_ws litKarura (by decide) t ht y
  have hA := dropLit_append_ws litAcala (by decide) t ht y
  rw [readChain, readChain, hM, hK, hA]
  cases dropLit litMandala y with
  | some r => simp
  | none =>
    cases dropLit litKarura y with
    | some r => simp
    | none =>
      cases dropLit litAcala y with
      | some r => simp
      | none => simp

theorem tryMatchAt_append_ws (t : List Char) (ht : ∀ c ∈ t, isPySpace c = true)
    (y : List Char) : tryMatchAt (y ++ t) = tryMatchAt y := by
  rw [tryMatchAt, tryMatchAt,
    dropLit_append_ws litRelease (by decide) t ht y]
  cases h1 : dropLit litRelease y with
  | none => rfl
  | some r1 =>
    simp only [Option.map_some', Option.some_bind]
    rw [readChain_append_ws t ht r1]
    cases h2 : readChain r1 with
    | none => rfl
    | some cr =>
      simp only [Option.map_some', Option.some_bind]
      rw [dropLit_append_ws ['-'] (by decide) t ht cr.2]
      cases h3 : dropLit ['-'] cr.2 with
      | none => rfl
      | some r3 =>
        simp only [Option.map_some', Option.some_bind]
        rw [readNum_append_ws t ht r3]
        cases h4 : readNum r3 with
        | none => rfl
        | some ar =>
          simp only [Option.map_some', Option.some_bind]
          rw [dropLit_append_ws ['.'] (by decide) t ht ar.2]
          cases h5 : dropLit ['.'] ar.2 with
          | none => rfl
          | some r5 =>
            simp only [Option.map_some', Option.some_bind]
            rw [readNum_append_ws t ht r5]
            cases h6 : readNum r5 with
            | none => rfl
            | some br =>
              simp only [Option.map_some', Option.some_bind]
              rw [dropLit_append_ws ['.'] (by decide) t ht br.2]
              cases h7 : dropLit ['.'] br.2 with
              | none => rfl
              | some r7 =>
                simp only [Option.map_some', Option.some_bind]
                rw [readNum_append_ws t ht r7]
                cases h8 : readNum r7 with
                | none => rfl
                | some pr => simp

theorem reSearch_ws_suffix (t : List Char) (ht : ∀ c ∈ t, isPySpace c = true) :
    ∀ y : List Char, reSearch (y ++ t) = reSearch y := by
  intro y
  induction y with
  | nil =>
    exact reSearch_all_not_r t fun c hc => isPySpace_ne_r c (ht c hc)
  | cons c y' ih =>
    have he : tryMatchAt (c :: (y' ++ t)) = tryMatchAt (c :: y') :=
      tryMatchAt_append_ws t ht (c :: y')
    cases h : tryMatchAt (c :: y') with
    | some r =>
      rw [List.cons_append, reSearch_cons_some c (y' ++ t) r (he.trans h),
        reSearch_cons_some c y' r h]
    | none =>
      rw [List.cons_append, reSearch_cons_none c (y' ++ t) (he.trans h),
        reSearch_cons_none c y' h, ih]

theorem reSearch_stripChars (l : List Char) :
    reSearch (stripChars l) = reSearch l := by
  have hsplit : l = l.takeWhile isPySpace ++ l.dropWhile isPySpace :=
    (List.takeWhile_append_dropWhile isPySpace l).symm
  have hlead : ∀ c ∈ l.takeWhile isPySpace, isPySpace c = true :=
    fun c hc => List.mem_takeWhile_imp hc
  have htail : l.dropWhile isPySpace
      = stripChars l ++ ((l.dropWhile isPySpace).reverse.takeWhile isPySpace).reverse := by
    conv_lhs => rw [← List.reverse_reverse (l.dropWhile isPySpace),
      ← List.takeWhile_append_dropWhile isPySpace (l.dropWhile isPySpace).reverse]
    rw [List.reverse_append]
    rfl
  have htrail : ∀ c ∈ ((l.dropWhile isPySpace).reverse.takeWhile isPySpace).reverse,
      isPySpace c = true := by
    intro c hc
    rw [List.mem_reverse] at hc
    exact List.mem_takeWhile_imp hc
  calc reSearch (stripChars l)
      = reSearch (stripChars l
          ++ ((l.dropWhile isPySpace).reverse.takeWhile isPySpace).reverse) :=
        (reSearch_ws_suffix _ htrail _).symm
    _ = reSearch (l.dropWhile isPySpace) := by rw [← htail]
    _ = reSearch (l.takeWhile isPySpace ++ l.dropWhile isPySpace) :=
        (reSearch_ws_lead _ _ hlead).symm
    _ = reSearch l := by rw [← hsplit]

theorem stripChars_eq_nil_iff (l : List Char) :
    stripChars l = [] ↔ l.all isPySpace = true := by
  have h1 : stripChars l = [] ↔ ∀ c ∈ l.dropWhile isPySpace, isPySpace c = true := by
    rw [stripChars, List.reverse_eq_nil_iff, List.dropWhile_eq_nil_iff]
    constructor
    · intro h c hc
      exact h c (List.mem_reverse.mpr hc)
    · intro h c hc
      exact h c (List.mem_reverse.mp hc)
  rw [h1, List.all_eq_true]
  constructor
  · intro h c hc
    rw [← List.takeWhile_append_dropWhile isPySpace l] at hc
    rcases List.mem_append.mp hc with hc | hc
    · exact List.mem_takeWhile_imp hc
    · exact h c hc
  · intro h c hc
    exact h c (List.dropWhile_sublist isPySpace |>.subset hc)

theorem stripChars_ne_nil_bool (l : List Char) :
    decide (stripChars l ≠ ([] : List Char)) = !(l.all isPySpace) := by
  by_cases h : l.all isPySpace = true
  · simp [h, (stripChars_eq_nil_iff l).mpr h]
  · have hne : stripChars l ≠ [] := fun he => h ((stripChars_eq_nil_iff l).mp he)
    simp only [Bool.not_eq_true] at h
    simp [hne, h]

/-- Claim C2: on every raw branch listing, `get_previous_version` computes
exactly what the spec describes: discard the empty and whitespace-only
lines, take the second-to-last remaining entry, and extract the version
component from that entry with the release-branch regex.  (The code strips
each line first; stripping never changes the regex search result.) -/
theorem C2_previous_version_refines (listing : String) :
    get_previous_version listing = previousVersionSpec listing := by
  simp only [get_previous_version, previousVersionSpec]
  have hcong : List.filter ((fun l => decide (l ≠ ([] : List Char))) ∘ stripChars)
      (splitOnChar '\n' listing.toList)
      = List.filter (fun l => !(l.all isPySpace)) (splitOnChar '\n' listing.toList) :=
    @List.filter_congr _ ((fun l => decide (l ≠ ([] : List Char))) ∘ stripChars)
      (fun l => !(l.all isPySpace)) (splitOnChar '\n' listing.toList)
      (fun x _ => stripChars_ne_nil_bool x)
  rw [List.filter_map, hcong]
  rw [← List.map_reverse, List.get?_eq_getElem?, List.getElem?_map, ← List.get?_eq_getElem?]
  cases h : ((splitOnChar '\n' listing.toList).filter
      (fun l => !(l.all isPySpace))).reverse.get? 1 with
  | none => rfl
  | some entry =>
    simp only [Option.map_some', Option.some_bind]
    rw [reSearch_stripChars entry]

/-! ## setup-env.py's restricted chain set (claim C10) -/

theorem digit_ne_r (c : Char) (h : c.isDigit = true) : c ≠ 'r' := by
  intro he
  subst he
  simp at h

theorem reSearchSE_cons_none (c : Char) (cs : List Char)
    (h : tryMatchAtSE (c :: cs) = none) : reSearchSE (c :: cs) = reSearchSE cs := by
  simp [reSearchSE, h]

theorem tryMatchAtSE_not_r (c : Char) (cs : List Char) (h : c ≠ 'r') :
    tryMatchAtSE (c :: cs) = none := by
  have hd : dropLit litRelease (c :: cs) = none := by
    simp [litRelease, dropLit, h]
  simp [tryMatchAtSE, hd]

theorem reSearchSE_all_not_r (l : List Char) (h : ∀ c ∈ l, c ≠ 'r') :
    reSearchSE l = none := by
  induction l with
  | nil => rfl
  | cons c t ih =>
    rw [reSearchSE_cons_none c t (tryMatchAtSE_not_r c t (h c (by simp)))]
    exact ih fun x hx => h x (by simp [hx])

theorem reSearchSE_skip_not_r (lead x : List Char) (h : ∀ c ∈ lead, c ≠ 'r') :
    reSearchSE (lead ++ x) = reSearchSE x := by
  induction lead with
  | nil => rfl
  | cons c t ih =>
    rw [List.cons_append,
      reSearchSE_cons_none c (t ++ x) (tryMatchAtSE_not_r c (t ++ x) (h c (by simp)))]
    exact ih fun y hy => h y (by simp [hy])

/-- Claim C10 (implicit): setup-env.py's own regex restricts the chain
group to `karura|acala`, so on a mandala release ref
`release-mandala-<M>.<m>.<p>` its search fails and the script writes no
`CHAIN`/`SCOPE` lines, while the shared parser in inspect.py parses the
very same ref successfully — the two parsers accept different chain
sets. -/
theorem C10_setup_env_rejects_mandala
    (M m p : List Char) (listing : String)
    (hM0 : M ≠ []) (hMd : ∀ c ∈ M, c.isDigit = true)
    (hm0 : m ≠ []) (hmd : ∀ c ∈ m, c.isDigit = true)
    (hp0 : p ≠ []) (hpd : ∀ c ∈ p, c.isDigit = true) :
    reSearchSE ("release-mandala-".toList ++ (M ++ '.' :: (m ++ '.' :: p))) = none
    ∧ setup_env_lines
        (String.mk ("release-mandala-".toList ++ (M ++ '.' :: (m ++ '.' :: p)))) listing = none
    ∧ get_chain_and_version
        (String.mk ("release-mandala-".toList ++ (M ++ '.' :: (m ++ '.' :: p))))
      = some ("mandala", String.mk (M ++ '.' :: (m ++ '.' :: p))) := by
  have htail : ∀ c ∈ M ++ '.' :: (m ++ '.' :: p), c ≠ 'r' := by
    intro c hc
    simp only [List.mem_append, List.mem_cons] at hc
    rcases hc with h | h | h | h | h
    · exact digit_ne_r c (hMd c h)
    · subst h; decide
    · exact digit_ne_r c (hmd c h)
    · subst h; decide
    · exact digit_ne_r c (hpd c h)
  have h0 : tryMatchAtSE ("release-mandala-".toList ++ (M ++ '.' :: (m ++ '.' :: p)))
      = none := rfl
  have hnone : reSearchSE ("release-mandala-".toList ++ (M ++ '.' :: (m ++ '.' :: p)))
      = none := by
    calc reSearchSE ("release-mandala-".toList ++ (M ++ '.' :: (m ++ '.' :: p)))
        = reSearchSE ("elease-mandala-".toList ++ (M ++ '.' :: (m ++ '.' :: p))) :=
          reSearchSE_cons_none 'r' _ h0
      _ = reSearchSE (M ++ '.' :: (m ++ '.' :: p)) :=
          reSearchSE_skip_not_r "elease-mandala-".toList _ (by decide)
      _ = none := reSearchSE_all_not_r _ htail
  have hparse : get_chain_and_version
      (String.mk ("release-mandala-".toList ++ (M ++ '.' :: (m ++ '.' :: p))))
      = some ("mandala", String.mk (M ++ '.' :: (m ++ '.' :: p))) := by
    have h := reSearch_release "mandala" (Or.inl rfl) M m p []
      hM0 hMd hm0 hmd hp0 hpd rfl
    rw [List.append_nil] at h
    exact h
  refine ⟨hnone, ?_, hparse⟩
  simp only [setup_env_lines]
  rw [show (String.mk ("release-mandala-".toList ++ (M ++ '.' :: (m ++ '.' :: p)))).toList
    = "release-mandala-".toList ++ (M ++ '.' :: (m ++ '.' :: p)) from rfl, hnone]
  rfl

/-- Witness for C10 at `release-mandala-1.2.3`. -/
theorem C10_witness :
    setup_env_lines "release-mandala-1.2.3" "x" = none
    ∧ get_chain_and_version "release-mandala-1.2.3" = some ("mandala", "1.2.3") := by
  have h := C10_setup_env_rejects_mandala ['1'] ['2'] ['3'] "x"
    (by decide) (by decide) (by decide) (by decide) (by decide) (by decide)
  exact ⟨h.2.1, h.2.2⟩

end AcalaCI
